import Mathlib

set_option maxRecDepth 100000

/-!
Verification of aws-sso-profile-sync (main.go) against its specification.

The Go program is shallowly embedded below.  File contents are modelled as
`Option String` (none = file absent) or, for the components that only access
the config file through the INI library (go-ini `Load`/`SaveTo`), at the
parsed-document level as `Option IniDoc`.  The INI parser itself is an
external collaborator (spec section 1 declares section/key parsing out of
scope), so where the code parses raw bytes the parse result is passed in as
an oracle `parse : String → Option IniDoc`.
-/

/-! ### String helpers mirroring the Go standard library calls used in main.go -/

/-- List-level body of Go `strings.TrimRight(s, "/")`. -/
def trimSlashesList (l : List Char) : List Char :=
  (l.reverse.dropWhile (fun c => c == '/')).reverse

/-- Go `strings.TrimRight(s, "/")`: removes every trailing `/`. -/
def trimTrailingSlashes (s : String) : String :=
  String.mk (trimSlashesList s.toList)

/-- Go `strings.TrimPrefix(s, pre)`: removes `pre` once if it is a leading
substring, otherwise returns `s` unchanged. -/
def trimPrefixStr (s pre : String) : String :=
  if pre.toList.isPrefixOf s.toList then String.mk (s.toList.drop pre.toList.length) else s

/-- Go `strings.TrimSuffix(s, suf)`: removes `suf` once if it is a trailing
substring, otherwise returns `s` unchanged. -/
def trimSuffixStr (s suf : String) : String :=
  if suf.toList.isSuffixOf s.toList then
    String.mk (s.toList.take (s.toList.length - suf.toList.length))
  else s

/-- Helper for Go `strings.Contains`: does `pat` occur as a contiguous
sublist of `s`? -/
def containsSub (pat : List Char) : List Char → Bool
  | [] => pat.isPrefixOf ([] : List Char)
  | c :: rest => pat.isPrefixOf (c :: rest) || containsSub pat rest

/-- Go `strings.Contains(s, pat)`. -/
def strContains (s pat : String) : Bool :=
  containsSub pat.toList s.toList

/-! ### Global flag state (main.go lines 32-43) -/

/-- The package-level configuration variables of main.go that the embedded
functions read (and, for `ssoSessionConfigName`, write). -/
structure Globals where
  ssoRoleNames : List String
  profilePrefix : String
  useAutoPrefix : Bool
  ssoStartURL : String
  ssoSessionConfigName : String
  ssoRegion : String
  dryRun : Bool
  profileOutput : String
deriving Repr, DecidableEq

/-- main.go line 27. -/
def defaultSSOSessionConfigName : String := "default"

/-! ### Profile naming (main.go `generatePrefixFromRole`, `getProfileNameFromRole`) -/

/-- main.go lines 413-422: strip a leading "AWS" and a trailing "Access" from
the role name; if anything remains append an underscore, else empty. -/
def generatePrefixFromRole (roleName : String) : String :=
  let cleaned := trimSuffixStr (trimPrefixStr roleName "AWS") "Access"
  if cleaned ≠ "" then cleaned ++ "_" else ""

/-- The character class of the Go regexp `[_\s]+` (RE2 `\s` = space, `\t`,
`\n`, `\f`, `\r`). -/
def isSepChar (c : Char) : Bool :=
  c == '_' || c == ' ' || c == '\t' || c == '\n' || c == '\r' || c == '\x0c'

/-- `re.ReplaceAllString(name, "-")` for `re = [_\s]+`: every maximal run of
separator characters becomes a single hyphen.  The Bool argument records
whether the previous character was part of a separator run. -/
def collapseSepRuns : Bool → List Char → List Char
  | _, [] => []
  | inRun, c :: rest =>
    if isSepChar c then
      if inRun then collapseSepRuns true rest
      else '-' :: collapseSepRuns true rest
    else c :: collapseSepRuns false rest

/-- main.go lines 426-427: sanitize the account display name. -/
def sanitizeAccountName (name : String) : String :=
  String.mk (collapseSepRuns false name.toList)

/-- main.go lines 277-281. -/
structure CombinedRole where
  AccountId : String
  RoleName : String
  AccountName : String
deriving Repr, DecidableEq

/-- main.go lines 425-444: format the profile name from a role, the explicit
`-prefix` flag value and the `-auto-prefix` toggle. -/
def getProfileNameFromRole (g : Globals) (role : CombinedRole) : String :=
  let safeAccountName := sanitizeAccountName role.AccountName
  let pfx :=
    if g.profilePrefix ≠ "" then g.profilePrefix
    else if g.useAutoPrefix then generatePrefixFromRole role.RoleName
    else ""
  if pfx ≠ "" then pfx ++ safeAccountName ++ "_" ++ role.AccountId
  else safeAccountName ++ "_" ++ role.AccountId

/-- C5: profile naming is deterministic and follows the stated algorithm:
"AWSReadOnlyAccess" derives prefix "ReadOnly_", "Access" derives the empty
prefix (so no prefix is applied), "My App" sanitizes to "My-App", an explicit
caller-supplied prefix takes precedence over the auto-derived one, and the
final name is prefix ++ sanitizedAccountName ++ "_" ++ accountId when the
prefix is non-empty and sanitizedAccountName ++ "_" ++ accountId otherwise. -/
theorem c5_profile_naming :
    generatePrefixFromRole "AWSReadOnlyAccess" = "ReadOnly_" ∧
    generatePrefixFromRole "Access" = "" ∧
    sanitizeAccountName "My App" = "My-App" ∧
    (∀ g role, g.profilePrefix ≠ "" →
      getProfileNameFromRole g role =
        g.profilePrefix ++ sanitizeAccountName role.AccountName ++ "_" ++ role.AccountId) ∧
    getProfileNameFromRole ⟨[], "", true, "", "default", "us-east-1", false, "json"⟩
        ⟨"123", "AWSReadOnlyAccess", "My App"⟩ = "ReadOnly_My-App_123" ∧
    getProfileNameFromRole ⟨[], "", true, "", "default", "us-east-1", false, "json"⟩
        ⟨"123", "Access", "My App"⟩ = "My-App_123" := by
  refine ⟨by decide, by decide, by decide, ?_, by decide, by decide⟩
  intro g role h
  simp [getProfileNameFromRole, h]

theorem c5_profile_naming_witness :
    ("Team_" : String) ≠ "" ∧
    getProfileNameFromRole ⟨[], "Team_", true, "", "default", "us-east-1", false, "json"⟩
        ⟨"999", "AWSPowerUserAccess", "My App"⟩ =
      "Team_" ++ sanitizeAccountName "My App" ++ "_" ++ "999" :=
  ⟨by decide, c5_profile_naming.2.2.2.1 _ _ (by decide)⟩

/-! ### Parsed INI documents (the view the go-ini collaborator provides) -/

/-- One `[name]` section of the config file with its key/value pairs. -/
structure IniSection where
  name : String
  keys : List (String × String)
deriving Repr, DecidableEq

/-- A parsed config document: the ordered list of its sections. -/
abbrev IniDoc := List IniSection

/-- go-ini `section.Key(k).String()`: the first value bound to `k`, or the
empty string when the key is absent. -/
def getKey (s : IniSection) (k : String) : String :=
  (s.keys.lookup k).getD ""

/-- go-ini `section.HasKey(k)`. -/
def hasKey (s : IniSection) (k : String) : Bool :=
  (s.keys.lookup k).isSome

/-! ### Session reconciler (main.go `findAllMatchingSsoSessionNames`, `ensureSsoSessionConfigPresent`) -/

/-- main.go lines 553-574: all sso-session names whose `sso_start_url`
(trailing slashes stripped) and `sso_region` match the target.  The label is
the part of the section name after the first space (`strings.SplitN`), i.e.
everything after the 12-character leading text `sso-session `. -/
def findAllMatchingSsoSessionNames (startURL region : String) (doc : IniDoc) : List String :=
  let normStart := trimTrailingSlashes startURL
  doc.filterMap fun s =>
    if "sso-session ".toList.isPrefixOf s.name.toList then
      if trimTrailingSlashes (getKey s "sso_start_url") = normStart ∧
         getKey s "sso_region" = region then
        some (String.mk (s.name.toList.drop 12))
      else none
    else none

/-- The error text built at main.go line 488. -/
def ambiguousSessionMsg (startURL region : String) : String :=
  "multiple matching sso-session blocks found for startUrl " ++ startURL ++
    " and region " ++ region

/-- Result of `ensureSsoSessionConfigPresent`: the `(added, err)` return pair,
the globals after the call (the function may rebind `ssoSessionConfigName`
when it reuses an existing session) and the config file contents after the
call. -/
structure EnsureResult where
  added : Bool
  err : Option String
  globals : Globals
  file : Option String
deriving Repr, DecidableEq

/-- main.go lines 447-515.  `parse` is the external go-ini loader applied to
the raw bytes (`none` = load error); `file` is the on-disk config file
(`none` = absent, in which case `os.ReadFile` yields no data and `os.Stat`
fails, skipping the reuse-detection block). -/
def ensureSsoSessionConfigPresent (parse : String → Option IniDoc) (g : Globals)
    (file : Option String) : EnsureResult :=
  let sessionHeader := "[sso-session " ++ g.ssoSessionConfigName ++ "]"
  let sessionBlock :=
    "[sso-session " ++ g.ssoSessionConfigName ++ "]\n" ++
    "sso_start_url = " ++ trimTrailingSlashes g.ssoStartURL ++ "\n" ++
    "sso_region = " ++ g.ssoRegion ++ "\n" ++
    "sso_registration_scopes = sso:account:access\n"
  let data := file.getD ""
  if strContains data sessionHeader then ⟨false, none, g, file⟩
  else
    let detect : Option EnsureResult :=
      if g.ssoSessionConfigName = defaultSSOSessionConfigName ∨ g.ssoSessionConfigName = "" then
        if file.isSome then
          match parse data with
          | some doc =>
            let found := findAllMatchingSsoSessionNames g.ssoStartURL g.ssoRegion doc
            if found.length = 1 then
              some ⟨false, none, { g with ssoSessionConfigName := found.headD "" }, file⟩
            else if found.length > 1 then
              some ⟨false, some (ambiguousSessionMsg g.ssoStartURL g.ssoRegion), g, file⟩
            else none
          | none => none
        else none
      else none
    match detect with
    | some r => r
    | none =>
      if g.dryRun then ⟨true, none, g, file⟩
      else
        let needsNewline := !data.isEmpty && ((data.toList.getLast?).all (fun c => c != '\n'))
        let toWrite := if needsNewline then "\n" ++ sessionBlock else sessionBlock
        ⟨true, none, g, some (data ++ toWrite)⟩

/-! ### Claims C2 and C4: reuse and ambiguity in the session reconciler -/

/-- A config document holding two sso-session declarations with identical
(issuerURL, region), used to exercise the ambiguity branch. -/
def twoSessionDoc : IniDoc :=
  [⟨"sso-session zqx1",
      [("sso_start_url", "https://unit.test/start"), ("sso_region", "us-east-1")]⟩,
   ⟨"sso-session zqx2",
      [("sso_start_url", "https://unit.test/start"), ("sso_region", "us-east-1")]⟩]

/-- Raw file text corresponding to `twoSessionDoc`. -/
def twoSessionRaw : String :=
  "[sso-session zqx1]\nsso_start_url = https://unit.test/start\nsso_region = us-east-1\n" ++
  "[sso-session zqx2]\nsso_start_url = https://unit.test/start\nsso_region = us-east-1\n"

/-- A go-ini load oracle that parses `twoSessionRaw` to `twoSessionDoc`. -/
def twoSessionParse : String → Option IniDoc := fun _ => some twoSessionDoc

/-- Globals with the session name left at its default. -/
def defaultNameGlobals : Globals :=
  ⟨[], "", true, "https://unit.test/start", "default", "us-east-1", false, "json"⟩

/-- Like `twoSessionDoc` but also holding a session named `default` for a
different issuer URL: still exactly two sessions match the target. -/
def threeSessionDoc : IniDoc :=
  twoSessionDoc ++
    [⟨"sso-session default",
        [("sso_start_url", "https://other.test"), ("sso_region", "us-east-1")]⟩]

/-- Raw file text corresponding to `threeSessionDoc`; it contains the exact
header `[sso-session default]`. -/
def threeSessionRaw : String :=
  twoSessionRaw ++
    "[sso-session default]\nsso_start_url = https://other.test\nsso_region = us-east-1\n"

/-- A go-ini load oracle that parses `threeSessionRaw` to `threeSessionDoc`. -/
def threeSessionParse : String → Option IniDoc := fun _ => some threeSessionDoc

/-- C2 counterexample: with two sessions `zqx1`/`zqx2` both matching the
target (issuerURL, region) and a default-named request, `ensure` does fail
and leaves the file unchanged, but the error it returns does NOT name the
candidate sessions — it only names the startUrl and the region — so the
claim that the error "names all candidate sessions" is false at this
concrete input.  The last two conjuncts show a second gap: when the file
already contains the exact `[sso-session default]` header, `ensure` returns
early with no error at all even though two sessions still match the target. -/
theorem c2_ambiguity_counterexample :
    findAllMatchingSsoSessionNames defaultNameGlobals.ssoStartURL defaultNameGlobals.ssoRegion
        twoSessionDoc = ["zqx1", "zqx2"] ∧
    (ensureSsoSessionConfigPresent twoSessionParse defaultNameGlobals (some twoSessionRaw)).err
      = some (ambiguousSessionMsg "https://unit.test/start" "us-east-1") ∧
    strContains (ambiguousSessionMsg "https://unit.test/start" "us-east-1") "zqx1" = false ∧
    strContains (ambiguousSessionMsg "https://unit.test/start" "us-east-1") "zqx2" = false ∧
    (ensureSsoSessionConfigPresent twoSessionParse defaultNameGlobals (some twoSessionRaw)).file
      = some twoSessionRaw ∧
    findAllMatchingSsoSessionNames defaultNameGlobals.ssoStartURL defaultNameGlobals.ssoRegion
        threeSessionDoc = ["zqx1", "zqx2"] ∧
    (ensureSsoSessionConfigPresent threeSessionParse defaultNameGlobals
        (some threeSessionRaw)).err = none := by
  refine ⟨by decide, ?_, by decide, by decide, ?_, by decide, ?_⟩ <;> decide

/-- C2 (amended): for every config store whose parsed view holds two or more
session declarations matching the target (issuerURL, region) under
trailing-slash normalization, and a default-named request whose exact header
is not already present in the raw file, `ensure` fails with the ambiguity
error identifying the target startUrl and region (it does not list the
candidate session names), reports nothing added, leaves the globals
untouched and leaves the config file unchanged (no section appended). -/
theorem c2_ambiguity_error (parse : String → Option IniDoc) (g : Globals)
    (data : String) (doc : IniDoc)
    (hname : g.ssoSessionConfigName = defaultSSOSessionConfigName ∨ g.ssoSessionConfigName = "")
    (hhdr : strContains data ("[sso-session " ++ g.ssoSessionConfigName ++ "]") = false)
    (hparse : parse data = some doc)
    (hlen : 1 < (findAllMatchingSsoSessionNames g.ssoStartURL g.ssoRegion doc).length) :
    ensureSsoSessionConfigPresent parse g (some data) =
      ⟨false, some (ambiguousSessionMsg g.ssoStartURL g.ssoRegion), g, some data⟩ := by
  have hne : (findAllMatchingSsoSessionNames g.ssoStartURL g.ssoRegion doc).length ≠ 1 := by
    omega
  simp [ensureSsoSessionConfigPresent, hhdr, hparse, hname, hne, hlen]

theorem c2_ambiguity_error_witness :
    ensureSsoSessionConfigPresent twoSessionParse defaultNameGlobals (some twoSessionRaw) =
      ⟨false, some (ambiguousSessionMsg defaultNameGlobals.ssoStartURL defaultNameGlobals.ssoRegion),
        defaultNameGlobals, some twoSessionRaw⟩ :=
  c2_ambiguity_error twoSessionParse defaultNameGlobals twoSessionRaw twoSessionDoc
    (Or.inl (by decide)) (by decide) (by decide) (by decide)

/-- A config document holding exactly one sso-session declaration matching
the target (issuerURL, region); its stored URL carries a trailing slash to
exercise the normalization. -/
def oneSessionDoc : IniDoc :=
  [⟨"sso-session corp",
      [("sso_start_url", "https://unit.test/start/"), ("sso_region", "us-east-1")]⟩]

/-- Raw file text corresponding to `oneSessionDoc`. -/
def oneSessionRaw : String :=
  "[sso-session corp]\nsso_start_url = https://unit.test/start/\nsso_region = us-east-1\n"

/-- A go-ini load oracle that parses `oneSessionRaw` to `oneSessionDoc`. -/
def oneSessionParse : String → Option IniDoc := fun _ => some oneSessionDoc

/-- C4: for every config store whose parsed view holds exactly one session
declaration matching the target (issuerURL, region) under trailing-slash
normalization, and a default-named request whose exact header is not already
present in the raw file, `ensure` reports created = false with no error,
resolves `ssoSessionConfigName` to the existing session's name, and appends
nothing to the config file. -/
theorem c4_reuse_single_match (parse : String → Option IniDoc) (g : Globals)
    (data : String) (doc : IniDoc) (m : String)
    (hname : g.ssoSessionConfigName = defaultSSOSessionConfigName ∨ g.ssoSessionConfigName = "")
    (hhdr : strContains data ("[sso-session " ++ g.ssoSessionConfigName ++ "]") = false)
    (hparse : parse data = some doc)
    (hmatch : findAllMatchingSsoSessionNames g.ssoStartURL g.ssoRegion doc = [m]) :
    ensureSsoSessionConfigPresent parse g (some data) =
      ⟨false, none, { g with ssoSessionConfigName := m }, some data⟩ := by
  simp [ensureSsoSessionConfigPresent, hhdr, hparse, hname, hmatch]

theorem c4_reuse_single_match_witness :
    ensureSsoSessionConfigPresent oneSessionParse defaultNameGlobals (some oneSessionRaw) =
      ⟨false, none, { defaultNameGlobals with ssoSessionConfigName := "corp" },
        some oneSessionRaw⟩ :=
  c4_reuse_single_match oneSessionParse defaultNameGlobals oneSessionRaw oneSessionDoc "corp"
    (Or.inl (by decide)) (by decide) (by decide) (by decide)

/-! ### Token cache store (main.go `getAccessTokenFromSsoSessionWithPath`) -/

/-- main.go line 241: the filter applied to a cached entry's stored start
URL.  Note the code compares the stored URL verbatim against the target and
against the target with ITS trailing slashes stripped; it never strips the
stored URL. -/
def startUrlMatches (storedUrl targetUrl : String) : Bool :=
  storedUrl == targetUrl || storedUrl == trimTrailingSlashes targetUrl

/-- The two fields of a cache entry's JSON body that the scan reads.  A field
is `none` when it is absent or not a string (the `.(string)` assertion
fails). -/
structure CacheJson where
  startUrl : Option String
  accessToken : Option String
deriving Repr, DecidableEq

/-- One directory entry of the SSO cache directory, with the results the
external collaborators produce for it: `readOk` (`os.ReadFile`), `parsed`
(`json.Unmarshal`, `none` = malformed) and `infoOk`/`modTime` (`f.Info()`). -/
structure CacheFileEntry where
  name : String
  readOk : Bool
  parsed : Option CacheJson
  infoOk : Bool
  modTime : Int
deriving Repr, DecidableEq

/-- main.go lines 221-226. -/
structure CacheCandidate where
  path : String
  startUrl : String
  token : String
  modTime : Int
deriving Repr, DecidableEq

/-- The loop body of main.go lines 228-255 for one directory entry: `some`
candidate when the entry is a readable, well-formed `.json` file whose stored
start URL passes the filter and whose stat succeeds, `none` (skip) otherwise. -/
def cacheCandidateOf (target : String) (f : CacheFileEntry) : Option CacheCandidate :=
  if ".json".toList.isSuffixOf f.name.toList then
    if f.readOk then
      match f.parsed with
      | some j =>
        match j.startUrl, j.accessToken with
        | some su, some tok =>
          if startUrlMatches su target then
            if f.infoOk then some ⟨f.name, su, tok, f.modTime⟩ else none
          else none
        | some _, none => none
        | none, _ => none
      | none => none
    else none
  else none

/-- main.go lines 228-255: collect every well-formed `.json` entry whose
stored start URL passes the filter, skipping unreadable, malformed and
stat-failing entries. -/
def cacheCandidates (target : String) (files : List CacheFileEntry) : List CacheCandidate :=
  files.filterMap (cacheCandidateOf target)

/-- main.go lines 259-264: scan the candidates keeping the one whose
modification time is strictly larger than the current best. -/
def pickLatest (init : CacheCandidate) (cs : List CacheCandidate) : CacheCandidate :=
  cs.foldl (fun latest c => if c.modTime > latest.modTime then c else latest) init

/-- main.go lines 214-266: the full scan.  Returns `(token, path)` of the
freshest matching entry, or the not-found error when no candidate exists. -/
def getAccessTokenFromSsoSessionWithPath (target : String) (files : List CacheFileEntry) :
    Except String (String × String) :=
  match cacheCandidates target files with
  | [] => .error ("no valid SSO accessToken found for startUrl " ++ target)
  | c :: cs => let latest := pickLatest c (c :: cs); .ok (latest.token, latest.path)

theorem pickLatest_cons (init c : CacheCandidate) (rest : List CacheCandidate) :
    pickLatest init (c :: rest) =
      pickLatest (if c.modTime > init.modTime then c else init) rest := rfl

theorem pickLatest_mem (init : CacheCandidate) (cs : List CacheCandidate) :
    pickLatest init cs ∈ init :: cs := by
  induction cs generalizing init with
  | nil => simp [pickLatest]
  | cons c rest ih =>
    rw [pickLatest_cons]
    by_cases hc : c.modTime > init.modTime
    · rw [if_pos hc]
      rcases List.mem_cons.mp (ih c) with h | h
      · rw [h]; exact List.mem_cons_of_mem _ (List.mem_cons_self _ _)
      · exact List.mem_cons_of_mem _ (List.mem_cons_of_mem _ h)
    · rw [if_neg hc]
      rcases List.mem_cons.mp (ih init) with h | h
      · rw [h]; exact List.mem_cons_self _ _
      · exact List.mem_cons_of_mem _ (List.mem_cons_of_mem _ h)

theorem pickLatest_max (init : CacheCandidate) (cs : List CacheCandidate) :
    ∀ x ∈ init :: cs, x.modTime ≤ (pickLatest init cs).modTime := by
  induction cs generalizing init with
  | nil =>
    intro x hx
    have hx' : x = init := by simpa using hx
    simp [pickLatest, hx']
  | cons c rest ih =>
    intro x hx
    rw [pickLatest_cons]
    set b := if c.modTime > init.modTime then c else init with hb
    have hbmax : b.modTime ≤ (pickLatest b rest).modTime := ih b b (List.mem_cons_self _ _)
    have hinit : init.modTime ≤ b.modTime := by
      rw [hb]
      by_cases hc : c.modTime > init.modTime
      · rw [if_pos hc]; exact le_of_lt hc
      · rw [if_neg hc]
    have hcle : c.modTime ≤ b.modTime := by
      rw [hb]
      by_cases hc : c.modTime > init.modTime
      · rw [if_pos hc]
      · rw [if_neg hc]; exact le_of_not_lt hc
    rcases List.mem_cons.mp hx with h | h
    · subst h; exact le_trans hinit hbmax
    · rcases List.mem_cons.mp h with h2 | h2
      · subst h2; exact le_trans hcle hbmax
      · exact ih b x (List.mem_cons_of_mem _ h2)

/-- Two members of a list whose modification times are pairwise distinct and
that share a modification time are the same member. -/
theorem distinct_modTime_eq {l : List CacheCandidate}
    (hp : l.Pairwise (fun a b => a.modTime ≠ b.modTime)) {a b : CacheCandidate}
    (ha : a ∈ l) (hb : b ∈ l) (hmt : a.modTime = b.modTime) : a = b := by
  by_contra hne
  have hsym : Symmetric (fun a b : CacheCandidate => a.modTime ≠ b.modTime) := by
    intro x y h he
    exact h he.symm
  exact List.Pairwise.forall hsym hp ha hb hne hmt

/-- Entries the scan cannot parse (or read) contribute no candidate. -/
theorem cacheCandidateOf_bad (target : String) (bad : CacheFileEntry)
    (hbad : bad.parsed = none ∨ bad.readOk = false) :
    cacheCandidateOf target bad = none := by
  rcases hbad with h | h <;> simp [cacheCandidateOf, h]

/-- C6: on every non-empty candidate set the scan returns a candidate whose
modification time is maximal; with pairwise-distinct modification times the
result is invariant under permuting the directory enumeration; entries that
fail to read or parse are skipped without affecting the result; and an empty
candidate set yields the not-found error. -/
theorem c6_freshest_selection (target : String) (files files' : List CacheFileEntry) :
    (cacheCandidates target files = [] →
      getAccessTokenFromSsoSessionWithPath target files =
        .error ("no valid SSO accessToken found for startUrl " ++ target)) ∧
    (cacheCandidates target files ≠ [] →
      ∃ best ∈ cacheCandidates target files,
        getAccessTokenFromSsoSessionWithPath target files = .ok (best.token, best.path) ∧
        ∀ c ∈ cacheCandidates target files, c.modTime ≤ best.modTime) ∧
    (files.Perm files' →
      (cacheCandidates target files).Pairwise (fun a b => a.modTime ≠ b.modTime) →
      getAccessTokenFromSsoSessionWithPath target files =
        getAccessTokenFromSsoSessionWithPath target files') ∧
    (∀ pre post bad, (bad.parsed = none ∨ bad.readOk = false) →
      getAccessTokenFromSsoSessionWithPath target (pre ++ bad :: post) =
        getAccessTokenFromSsoSessionWithPath target (pre ++ post)) := by
  refine ⟨?_, ?_, ?_, ?_⟩
  · intro h
    simp [getAccessTokenFromSsoSessionWithPath, h]
  · intro hne
    rcases hcc : cacheCandidates target files with _ | ⟨c, cs⟩
    · exact absurd hcc hne
    · refine ⟨pickLatest c (c :: cs), ?_, ?_, ?_⟩
      · rcases List.mem_cons.mp (pickLatest_mem c (c :: cs)) with h | h
        · rw [h]; exact List.mem_cons_self _ _
        · exact h
      · simp [getAccessTokenFromSsoSessionWithPath, hcc]
      · intro x hx
        exact pickLatest_max c (c :: cs) x (List.mem_cons_of_mem _ hx)
  · intro hperm hpd
    have hccp : (cacheCandidates target files).Perm (cacheCandidates target files') :=
      hperm.filterMap _
    rcases h1 : cacheCandidates target files with _ | ⟨c, cs⟩
    · have h2 : cacheCandidates target files' = [] := by
        rw [h1] at hccp
        exact hccp.symm.eq_nil
      simp [getAccessTokenFromSsoSessionWithPath, h1, h2]
    · rcases h2 : cacheCandidates target files' with _ | ⟨d, ds⟩
      · rw [h1, h2] at hccp
        exact absurd hccp.eq_nil (List.cons_ne_nil c cs)
      · rw [h1, h2] at hccp
        rw [h1] at hpd
        have mem1 : pickLatest c (c :: cs) ∈ c :: cs := by
          rcases List.mem_cons.mp (pickLatest_mem c (c :: cs)) with h | h
          · rw [h]; exact List.mem_cons_self _ _
          · exact h
        have mem2 : pickLatest d (d :: ds) ∈ d :: ds := by
          rcases List.mem_cons.mp (pickLatest_mem d (d :: ds)) with h | h
          · rw [h]; exact List.mem_cons_self _ _
          · exact h
        have mem2' : pickLatest d (d :: ds) ∈ c :: cs := hccp.mem_iff.mpr mem2
        have mem1' : pickLatest c (c :: cs) ∈ d :: ds := hccp.mem_iff.mp mem1
        have hle1 : (pickLatest c (c :: cs)).modTime ≤ (pickLatest d (d :: ds)).modTime :=
          pickLatest_max d (d :: ds) _ (List.mem_cons_of_mem _ mem1')
        have hle2 : (pickLatest d (d :: ds)).modTime ≤ (pickLatest c (c :: cs)).modTime :=
          pickLatest_max c (c :: cs) _ (List.mem_cons_of_mem _ mem2')
        have heq : pickLatest c (c :: cs) = pickLatest d (d :: ds) :=
          distinct_modTime_eq hpd mem1 mem2' (le_antisymm hle1 hle2)
        simp [getAccessTokenFromSsoSessionWithPath, h1, h2, heq]
  · intro pre post bad hbad
    have hcc : cacheCandidates target (pre ++ bad :: post) = cacheCandidates target (pre ++ post) := by
      simp [cacheCandidates, List.filterMap_append, List.filterMap_cons,
        cacheCandidateOf_bad target bad hbad]
    simp [getAccessTokenFromSsoSessionWithPath, hcc]

/-- Target issuer URL used by the concrete cache scenarios. -/
def cacheTarget : String := "https://unit.test/start"

/-- A well-formed cache entry with modification time 5. -/
def cacheEntryA : CacheFileEntry :=
  ⟨"a.json", true, some ⟨some "https://unit.test/start", some "tokA"⟩, true, 5⟩

/-- A well-formed cache entry with modification time 9. -/
def cacheEntryB : CacheFileEntry :=
  ⟨"b.json", true, some ⟨some "https://unit.test/start", some "tokB"⟩, true, 9⟩

/-- A malformed cache entry (JSON unmarshal fails). -/
def cacheEntryBad : CacheFileEntry := ⟨"bad.json", true, none, true, 7⟩

theorem c6_freshest_selection_witness :
    getAccessTokenFromSsoSessionWithPath cacheTarget [] =
      .error ("no valid SSO accessToken found for startUrl " ++ cacheTarget) ∧
    (∃ best ∈ cacheCandidates cacheTarget [cacheEntryA, cacheEntryB],
      getAccessTokenFromSsoSessionWithPath cacheTarget [cacheEntryA, cacheEntryB] =
        .ok (best.token, best.path) ∧
      ∀ c ∈ cacheCandidates cacheTarget [cacheEntryA, cacheEntryB],
        c.modTime ≤ best.modTime) ∧
    getAccessTokenFromSsoSessionWithPath cacheTarget [cacheEntryA, cacheEntryB] =
      getAccessTokenFromSsoSessionWithPath cacheTarget [cacheEntryB, cacheEntryA] ∧
    getAccessTokenFromSsoSessionWithPath cacheTarget ([cacheEntryA] ++ cacheEntryBad :: [cacheEntryB]) =
      getAccessTokenFromSsoSessionWithPath cacheTarget ([cacheEntryA] ++ [cacheEntryB]) :=
  ⟨(c6_freshest_selection cacheTarget [] []).1 rfl,
   (c6_freshest_selection cacheTarget [cacheEntryA, cacheEntryB] []).2.1 (by decide),
   (c6_freshest_selection cacheTarget [cacheEntryA, cacheEntryB] [cacheEntryB, cacheEntryA]).2.2.1
     (List.Perm.swap _ _ _) (by decide),
   (c6_freshest_selection cacheTarget ([cacheEntryA] ++ cacheEntryBad :: [cacheEntryB]) []).2.2.2
     [cacheEntryA] [cacheEntryB] cacheEntryBad (Or.inl rfl)⟩

/-! ### Claim C7: the trailing-slash comparison of the cache filter -/

theorem trimSlashesList_idem (l : List Char) :
    trimSlashesList (trimSlashesList l) = trimSlashesList l := by
  unfold trimSlashesList
  rw [List.reverse_reverse, List.dropWhile_idempotent]

theorem trimTrailingSlashes_idem (s : String) :
    trimTrailingSlashes (trimTrailingSlashes s) = trimTrailingSlashes s := by
  unfold trimTrailingSlashes
  rw [show (String.mk (trimSlashesList s.toList)).toList = trimSlashesList s.toList from rfl,
    trimSlashesList_idem]

theorem trimTrailingSlashes_append_slash (u : String) :
    trimTrailingSlashes (u ++ "/") = trimTrailingSlashes u := by
  unfold trimTrailingSlashes trimSlashesList
  congr 1
  have h : (u ++ "/").toList = u.toList ++ ['/'] := by
    rw [show (u ++ "/").toList = (u ++ "/").data from rfl, String.data_append]
    rfl
  rw [h, List.reverse_append]
  simp [List.dropWhile]

/-- C7 counterexample: a stored issuer URL carrying a trailing slash and a
target without one are equal under trailing-slash-insensitive comparison,
yet the filter at main.go line 241 rejects the entry: the claimed "matches
exactly when equal after stripping trailing slashes from either side" is
false at this concrete input. -/
theorem c7_slash_asymmetry_counterexample :
    trimTrailingSlashes "https://unit.test/start/" = trimTrailingSlashes "https://unit.test/start" ∧
    startUrlMatches "https://unit.test/start/" "https://unit.test/start" = false ∧
    cacheCandidates "https://unit.test/start"
      [⟨"t.json", true, some ⟨some "https://unit.test/start/", some "tok"⟩, true, 1⟩] = [] := by
  exact ⟨by decide, by decide, by decide⟩

/-- C7 (amended): the filter accepts a stored URL exactly when it equals the
target verbatim or equals the target with the target's trailing slashes
stripped.  Hence matching is sound for trailing-slash-insensitive equality
(an accepted pair is equal after stripping), and a stored URL without a
trailing slash matches a target carrying one — but not vice versa. -/
theorem c7_slash_matching (su target u : String) :
    (startUrlMatches su target = true →
      trimTrailingSlashes su = trimTrailingSlashes target) ∧
    (trimTrailingSlashes u = u →
      startUrlMatches u (u ++ "/") = true ∧ startUrlMatches (u ++ "/") u = false) := by
  constructor
  · intro h
    rcases Bool.or_eq_true_iff.mp h with h1 | h1
    · rw [eq_of_beq h1]
    · rw [eq_of_beq h1, trimTrailingSlashes_idem]
  · intro h
    have hne : u ++ "/" ≠ u := by
      intro he
      have hlen := congrArg (fun s : String => s.data.length) he
      simp only [String.data_append] at hlen
      simp at hlen
    constructor
    · simp [startUrlMatches, trimTrailingSlashes_append_slash, h]
    · simp [startUrlMatches, h, hne]

theorem c7_slash_matching_witness :
    (trimTrailingSlashes "https://unit.test/start" = "https://unit.test/start") ∧
    startUrlMatches "https://unit.test/start" ("https://unit.test/start" ++ "/") = true ∧
    startUrlMatches ("https://unit.test/start" ++ "/") "https://unit.test/start" = false :=
  ⟨by decide,
   ((c7_slash_matching "x" "y" "https://unit.test/start").2 (by decide)).1,
   ((c7_slash_matching "x" "y" "https://unit.test/start").2 (by decide)).2⟩

/-! ### Device authorization client (main.go `runAwsSsoLogin`, lines 70-193) -/

/-- Outcome of one `client.CreateToken` attempt: success with the (possibly
nil) access token, a pending-authorization / slow-down error (the
`strings.Contains` check at main.go line 143), or any other error. -/
inductive AttemptRes
  | success (tok : Option String)
  | pending
  | fatal (e : String)
deriving Repr, DecidableEq

/-- Outcome of the polling loop of main.go lines 129-148. -/
inductive PollResult
  | obtained (tok : Option String)
  | expired
  | failed (e : String)
deriving Repr, DecidableEq

/-- main.go lines 123-126: `interval := 5; if devOut.Interval > 0 { interval
= devOut.Interval }` — the effective interval is always at least one second,
so it is modelled as `effIntervalPred + 1`. -/
def effIntervalPred (devInterval : Int) : Nat :=
  if devInterval > 0 then devInterval.toNat - 1 else 4

/-- main.go lines 129-148: poll for the token until the deadline computed
from `expiresIn` passes.  `t` is the current wall-clock time (0 at loop
entry), `deadline = expiresIn`, and `att i` is the result of the i-th
`CreateToken` call.  One pending attempt sleeps for the interval
(`ivPred + 1`) and retries; a success or non-pending error exits at once. -/
def pollLoop (att : Nat → AttemptRes) (ivPred deadline t i : Nat) : PollResult :=
  if t < deadline then
    match att i with
    | .success tok => .obtained tok
    | .pending => pollLoop att ivPred deadline (t + (ivPred + 1)) (i + 1)
    | .fatal e => .failed e
  else .expired
termination_by deadline - t
decreasing_by omega

theorem pollLoop_unfold (att : Nat → AttemptRes) (ivPred deadline t i : Nat) :
    pollLoop att ivPred deadline t i =
      if t < deadline then
        match att i with
        | .success tok => .obtained tok
        | .pending => pollLoop att ivPred deadline (t + (ivPred + 1)) (i + 1)
        | .fatal e => .failed e
      else .expired := by
  conv_lhs => rw [pollLoop]

theorem pollLoop_step_success (att : Nat → AttemptRes) (ivPred deadline t i : Nat)
    (tok : Option String) (h : t < deadline) (hatt : att i = .success tok) :
    pollLoop att ivPred deadline t i = .obtained tok := by
  rw [pollLoop_unfold, if_pos h, hatt]

theorem pollLoop_step_fatal (att : Nat → AttemptRes) (ivPred deadline t i : Nat)
    (e : String) (h : t < deadline) (hatt : att i = .fatal e) :
    pollLoop att ivPred deadline t i = .failed e := by
  rw [pollLoop_unfold, if_pos h, hatt]

theorem pollLoop_step_pending (att : Nat → AttemptRes) (ivPred deadline t i : Nat)
    (h : t < deadline) (hatt : att i = .pending) :
    pollLoop att ivPred deadline t i =
      pollLoop att ivPred deadline (t + (ivPred + 1)) (i + 1) := by
  rw [pollLoop_unfold, if_pos h, hatt]

theorem pollLoop_expired (att : Nat → AttemptRes) (ivPred deadline t i : Nat)
    (h : deadline ≤ t) : pollLoop att ivPred deadline t i = .expired := by
  rw [pollLoop_unfold, if_neg (by omega)]

/-- Even when every attempt keeps reporting pending, the loop stops once the
deadline passes (the time advances by at least one second per iteration). -/
theorem pollLoop_all_pending (att : Nat → AttemptRes) (ivPred deadline : Nat)
    (hall : ∀ j, att j = .pending) :
    ∀ n t i, deadline - t ≤ n → pollLoop att ivPred deadline t i = .expired := by
  intro n
  induction n with
  | zero =>
    intro t i hle
    exact pollLoop_expired att ivPred deadline t i (by omega)
  | succ n ih =>
    intro t i hle
    by_cases h : t < deadline
    · rw [pollLoop_step_pending att ivPred deadline t i h (hall i)]
      exact ih _ _ (by omega)
    · exact pollLoop_expired att ivPred deadline t i (by omega)

/-- main.go lines 33-35 of the struct literal at 168-174: the cache record
written after a successful device flow (its JSON serialization is the
external collaborator). -/
structure CacheRecord where
  startUrl : String
  region : String
  accessToken : String
  expiresAt : String
deriving Repr, DecidableEq

/-- The files of `~/.aws/sso/cache` as (filename, record) pairs.
`runAwsSsoLogin` touches no other file (in particular it never opens the
config file), so the world is just the token cache. -/
structure World where
  ssoCache : List (String × CacheRecord)
deriving Repr, DecidableEq

/-- main.go lines 70-193: the full device-authorization flow.  `reg` and
`dev` are the collaborator responses to `RegisterClient` and
`StartDeviceAuthorization`; `att` enumerates the `CreateToken` outcomes;
`ts` is the nanosecond timestamp used for the cache filename and `expiresAt`
the formatted expiry.  On a successful poll the token is persisted into the
cache (write-to-temp-then-rename collapses to an append of the final file).
Note that the function never consults `g.dryRun`: the cache write happens in
dry-run mode too. -/
def runAwsSsoLogin (g : Globals) (reg : Except String Unit) (dev : Except String (Int × Nat))
    (att : Nat → AttemptRes) (ts : Nat) (expiresAt : String) (w : World) :
    Option String × World :=
  match reg with
  | .error e => (some e, w)
  | .ok _ =>
    match dev with
    | .error e => (some e, w)
    | .ok (devInterval, expiresIn) =>
      match pollLoop att (effIntervalPred devInterval) expiresIn 0 0 with
      | .failed e => (some e, w)
      | .expired => (some "failed to obtain access token via device authorization", w)
      | .obtained none => (some "failed to obtain access token via device authorization", w)
      | .obtained (some tok) =>
        let filename := "sso_token_" ++ toString ts ++ ".json"
        let record : CacheRecord :=
          ⟨trimTrailingSlashes g.ssoStartURL, g.ssoRegion, tok, expiresAt⟩
        (none, ⟨w.ssoCache ++ [(filename, record)]⟩)

/-- C9: each token-exchange attempt has exactly three outcomes — success
exits the loop with the token, a pending/rate-limit signal sleeps for the
interval and retries, and any other error is returned immediately; the loop
terminates unconditionally once the deadline computed from expiresIn passes,
even if attempts are still returning pending signals, and that expiry is
reported as the distinct device-authorization failure message rather than a
propagated exchange error. -/
theorem c9_device_poll_loop (att : Nat → AttemptRes) (ivPred deadline t i : Nat) :
    (∀ tok, t < deadline → att i = .success tok →
      pollLoop att ivPred deadline t i = .obtained tok) ∧
    (t < deadline → att i = .pending →
      pollLoop att ivPred deadline t i =
        pollLoop att ivPred deadline (t + (ivPred + 1)) (i + 1)) ∧
    (∀ e, t < deadline → att i = .fatal e →
      pollLoop att ivPred deadline t i = .failed e) ∧
    (deadline ≤ t → pollLoop att ivPred deadline t i = .expired) ∧
    ((∀ j, att j = .pending) → pollLoop att ivPred deadline t i = .expired) ∧
    (∀ g ts expAt w devInterval expiresIn, (∀ j, att j = .pending) →
      runAwsSsoLogin g (.ok ()) (.ok (devInterval, expiresIn)) att ts expAt w =
        (some "failed to obtain access token via device authorization", w)) ∧
    (∀ g ts expAt w devInterval expiresIn e, att 0 = .fatal e → 0 < expiresIn →
      runAwsSsoLogin g (.ok ()) (.ok (devInterval, expiresIn)) att ts expAt w =
        (some e, w)) := by
  refine ⟨pollLoop_step_success att ivPred deadline t i |> fun f tok h ha => f tok h ha,
    pollLoop_step_pending att ivPred deadline t i,
    fun e h ha => pollLoop_step_fatal att ivPred deadline t i e h ha,
    pollLoop_expired att ivPred deadline t i,
    fun hall => pollLoop_all_pending att ivPred deadline hall (deadline - t) t i le_rfl,
    ?_, ?_⟩
  · intro g ts expAt w devInterval expiresIn hall
    have hp : pollLoop att (effIntervalPred devInterval) expiresIn 0 0 = .expired :=
      pollLoop_all_pending att (effIntervalPred devInterval) expiresIn hall
        (expiresIn - 0) 0 0 le_rfl
    simp [runAwsSsoLogin, hp]
  · intro g ts expAt w devInterval expiresIn e hatt hpos
    have hp : pollLoop att (effIntervalPred devInterval) expiresIn 0 0 = .failed e :=
      pollLoop_step_fatal att (effIntervalPred devInterval) expiresIn 0 0 e hpos hatt
    simp [runAwsSsoLogin, hp]

theorem c9_device_poll_loop_witness :
    pollLoop (fun _ => .success (some "tok")) 4 60 0 0 = .obtained (some "tok") ∧
    pollLoop (fun _ => .pending) 4 60 0 0 = .expired ∧
    pollLoop (fun _ => .fatal "access_denied") 4 60 0 0 = .failed "access_denied" ∧
    pollLoop (fun _ => .pending) 4 60 60 12 = .expired ∧
    runAwsSsoLogin ⟨[], "", true, "https://unit.test/start", "default", "us-east-1", false, "json"⟩
        (.ok ()) (.ok (5, 60)) (fun _ => .pending) 42 "2026-01-01T00:00:00Z" ⟨[]⟩ =
      (some "failed to obtain access token via device authorization", ⟨[]⟩) :=
  ⟨(c9_device_poll_loop (fun _ => .success (some "tok")) 4 60 0 0).1 (some "tok")
      (by omega) rfl,
   (c9_device_poll_loop (fun _ => .pending) 4 60 0 0).2.2.2.2.1 (fun _ => rfl),
   (c9_device_poll_loop (fun _ => .fatal "access_denied") 4 60 0 0).2.2.1 "access_denied"
      (by omega) rfl,
   (c9_device_poll_loop (fun _ => .pending) 4 60 60 12).2.2.2.1 (by omega),
   (c9_device_poll_loop (fun _ => .pending) 4 60 0 0).2.2.2.2.2.1 _ 42 "2026-01-01T00:00:00Z"
      ⟨[]⟩ 5 60 (fun _ => rfl)⟩

/-- C1 (failing-input evidence): with the dry-run flag enabled, a successful
device-authorization login still writes a new token-cache file —
`runAwsSsoLogin` never consults `dryRun` before persisting the token (main.go
lines 153-192), although the dry-run banner printed at line 838 promises "no
files will be written".  At this concrete input the flow succeeds and the
cache gains `sso_token_42.json`. -/
theorem c1_dry_run_login_writes_token_cache :
    (⟨[], "", true, "https://unit.test/start", "default", "us-east-1", true, "json"⟩
      : Globals).dryRun = true ∧
    runAwsSsoLogin
        ⟨[], "", true, "https://unit.test/start", "default", "us-east-1", true, "json"⟩
        (.ok ()) (.ok (5, 60)) (fun _ => .success (some "tok")) 42
        "2026-01-01T00:00:00Z" ⟨[]⟩ =
      (none, ⟨[("sso_token_42.json",
        ⟨"https://unit.test/start", "us-east-1", "tok", "2026-01-01T00:00:00Z"⟩)]⟩) ∧
    ([] : List (String × CacheRecord)) ≠
      [("sso_token_42.json",
        ⟨"https://unit.test/start", "us-east-1", "tok", "2026-01-01T00:00:00Z"⟩)] := by
  refine ⟨rfl, ?_, by decide⟩
  have hp : pollLoop (fun _ => .success (some "tok")) (effIntervalPred 5) 60 0 0 =
      .obtained (some "tok") :=
    pollLoop_step_success _ _ _ _ _ _ (by omega) rfl
  simp only [runAwsSsoLogin, hp]
  decide

/-! ### Post-login re-validation (main.go `login`, lines 861-874) -/

/-- main.go lines 862-870: the body of `for i := 0; i < 10; i++`.  `fetch i`
returns what `getAccessTokenFunc` assigns to `(accessToken, tokenPath, err)`
on the i-th attempt.  When `err == nil && isSsoTokenValid(accessToken)` the
loop breaks with `lastErr = nil`; otherwise `lastErr = err` (note: `nil` when
the fetch succeeded but validation rejected the token) and the loop retries
after the fixed 500ms delay. -/
def revalidateLoop (fetch : Nat → String × String × Option String) (valid : String → Bool) :
    Nat → Nat → (String × String) → Option String → (String × String) × Option String
  | _, 0, st, lastErr => (st, lastErr)
  | i, Nat.succ n, _, _ =>
    match fetch i with
    | (tok, path, e) =>
      if e = none ∧ valid tok = true then ((tok, path), none)
      else revalidateLoop fetch valid (i + 1) n (tok, path) e

/-- main.go lines 861-874: run the 10-attempt loop, then return the wrapping
error iff `lastErr != nil`; otherwise proceed with the current
`(accessToken, tokenPath)` pair. -/
def loginRevalidate (fetch : Nat → String × String × Option String) (valid : String → Bool)
    (st0 : String × String) : Except String (String × String) :=
  match revalidateLoop fetch valid 0 10 st0 none with
  | (_, some e) => .error ("SSO login did not produce a valid access token: " ++ e)
  | (st, none) => .ok st

/-- C8 (failing-input evidence): when every one of the 10 post-login
attempts fetches a credential without error but validation rejects it,
`lastErr` is overwritten with `nil` on each iteration, so after the loop the
code treats the run as a success and proceeds with the invalid token instead
of returning the fatal wrapping error.  (When the attempts keep failing to
fetch, the wrapping error is produced as the claim describes — second
conjunct.) -/
theorem c8_invalid_token_proceeds :
    (fun _ : String => false) "badTok" = false ∧
    loginRevalidate (fun _ => ("badTok", "p.json", none)) (fun _ => false) ("", "") =
      .ok ("badTok", "p.json") ∧
    loginRevalidate (fun _ => ("", "", some "cache miss")) (fun _ => true) ("", "") =
      .error ("SSO login did not produce a valid access token: " ++ "cache miss") := by
  exact ⟨rfl, rfl, rfl⟩

/-! ### Raw file operations of `writeProfileToConfig` (main.go lines 670-705) -/

/-- The write-path file operations of main.go lines 694-704: ensure the
parent directory, truncate the config file to empty (`os.WriteFile` with empty bytes), then `cfg.SaveTo` (full rewrite with the serialized
document). -/
inductive FileOp
  | mkdirAll
  | writeEmptyFile
  | saveTo (contents : String)
deriving Repr, DecidableEq

/-- The operations `writeProfileToConfig` performs on the config file: none
in dry-run (main.go lines 657-668 only print), otherwise MkdirAll, the
truncating WriteFile, and SaveTo in that order. -/
def writeProfileFileOps (dryRunFlag : Bool) (serialized : String) : List FileOp :=
  if dryRunFlag then [] else [.mkdirAll, .writeEmptyFile, .saveTo serialized]

/-- Interpreter for the file operations: `saveOk` says whether the final
SaveTo succeeds; a failing SaveTo stops execution leaving the file as the
preceding operations left it.  Returns the file contents and whether the
call succeeded. -/
def runFileOps (saveOk : Bool) : Option String → List FileOp → Option String × Bool
  | file, [] => (file, true)
  | file, .mkdirAll :: rest => runFileOps saveOk file rest
  | _, .writeEmptyFile :: rest => runFileOps saveOk (some "") rest
  | file, .saveTo contents :: rest =>
    if saveOk then runFileOps saveOk (some contents) rest else (file, false)

/-- C10: in every non-dry-run call of `writeProfileToConfig` the existing
config file is first overwritten with empty content before the in-memory
document is saved back; if the final save fails after that truncation, the
on-disk file is left empty rather than holding its prior contents — the
write is not atomic and does not keep pre-call state on error.  (On success
the file holds the serialized document; in dry-run no operation touches the
file.) -/
theorem c10_write_truncates_before_save (serialized : String) (file : Option String) :
    runFileOps false file (writeProfileFileOps false serialized) = (some "", false) ∧
    runFileOps true file (writeProfileFileOps false serialized) = (some serialized, true) ∧
    (∀ saveOk, runFileOps saveOk file (writeProfileFileOps true serialized) = (file, true)) ∧
    writeProfileFileOps false serialized = [.mkdirAll, .writeEmptyFile, .saveTo serialized] :=
  ⟨rfl, rfl, fun _ => rfl, rfl⟩

/-! ### Profile synchronizer (main.go `profileExists`, `writeProfileToConfig`,
`configureSsoProfiles`).  These functions access the config file only through
go-ini `Load`/`SaveTo`, so the file is modelled at the document level:
`Option IniDoc` with `none` for a missing/unloadable file. -/

/-- go-ini `section.Key(k).SetValue(v)`: update the first binding of `k` in
place, or append a new one. -/
def upsertKey : List (String × String) → String → String → List (String × String)
  | [], k, v => [(k, v)]
  | (k', v') :: rest, k, v =>
    if k' = k then (k, v) :: rest else (k', v') :: upsertKey rest k v

/-- First section carrying the given name. -/
def findSection (doc : IniDoc) (name : String) : Option IniSection :=
  doc.find? (fun s => s.name == name)

/-- go-ini `NewSection`-or-`Section` followed by key updates: update the
first section of that name in place, or append a fresh one. -/
def upsertSection : IniDoc → String → (List (String × String) → List (String × String)) → IniDoc
  | [], name, f => [⟨name, f []⟩]
  | s :: rest, name, f =>
    if s.name = name then ⟨s.name, f s.keys⟩ :: rest
    else s :: upsertSection rest name f

/-- main.go lines 708-716: a profile exists when loading succeeds and the
section `profile <name>` carries the `sso_session` key.  (go-ini
`cfg.Section(name)` never returns nil — it creates an empty section — so the
nil check is vacuous and the bare section does not count without the key.) -/
def profileExists (profileName : String) (file : Option IniDoc) : Bool :=
  match file with
  | none => false
  | some doc =>
    match findSection doc ("profile " ++ profileName) with
    | some s => hasKey s "sso_session"
    | none => false

/-- main.go lines 687-692: the five key updates performed on the profile
section, in source order. -/
def setProfileKeys (g : Globals) (role : CombinedRole)
    (keys : List (String × String)) : List (String × String) :=
  upsertKey (upsertKey (upsertKey (upsertKey (upsertKey keys
    "sso_session" g.ssoSessionConfigName)
    "sso_account_id" role.AccountId)
    "sso_role_name" role.RoleName)
    "region" g.ssoRegion)
    "output" g.profileOutput

/-- main.go lines 656-705 at the document level: dry-run only prints; a real
run loads the file (empty document when the load fails), updates or creates
the `profile <name>` section with the five keys, and saves the document
back. -/
def writeProfileToConfig (g : Globals) (profileName : String) (role : CombinedRole)
    (file : Option IniDoc) : Option IniDoc :=
  if g.dryRun then file
  else
    some (upsertSection (file.getD []) ("profile " ++ profileName) (setProfileKeys g role))

/-- main.go lines 740-763: the reconciliation loop, threading the counters
and the on-disk file (each iteration re-reads it through `profileExists` and
`writeProfileToConfig`). -/
def configureSsoProfilesAux (g : Globals) :
    List CombinedRole → Nat → Nat → Option IniDoc → Nat × Nat × Option IniDoc
  | [], added, skipped, file => (added, skipped, file)
  | role :: rest, added, skipped, file =>
    let profileName := getProfileNameFromRole g role
    if profileExists profileName file then
      configureSsoProfilesAux g rest added (skipped + 1) file
    else
      configureSsoProfilesAux g rest (added + 1) skipped
        (writeProfileToConfig g profileName role file)

/-- main.go lines 719-770: reconcile all entitlements, starting from zero
counters. -/
def configureSsoProfiles (g : Globals) (roles : List CombinedRole) (file : Option IniDoc) :
    Nat × Nat × Option IniDoc :=
  configureSsoProfilesAux g roles 0 0 file

theorem lookup_upsertKey_self (keys : List (String × String)) (k v : String) :
    (upsertKey keys k v).lookup k = some v := by
  induction keys with
  | nil => simp [upsertKey, List.lookup_cons_self]
  | cons p rest ih =>
    obtain ⟨k', v'⟩ := p
    by_cases h : k' = k
    · subst h
      simp [upsertKey, List.lookup_cons_self]
    · have hb : (k == k') = false := beq_eq_false_iff_ne.mpr (fun he => h he.symm)
      simp only [upsertKey, if_neg h, List.lookup_cons, hb]
      exact ih

theorem lookup_upsertKey_ne (keys : List (String × String)) (k k' v : String) (h : k' ≠ k) :
    (upsertKey keys k v).lookup k' = keys.lookup k' := by
  have hb : (k' == k) = false := beq_eq_false_iff_ne.mpr h
  induction keys with
  | nil => simp [upsertKey, List.lookup_cons, hb]
  | cons p rest ih =>
    obtain ⟨k0, v0⟩ := p
    by_cases h0 : k0 = k
    · have hb0 : (k' == k0) = false := by
        rw [h0]
        exact hb
      simp only [upsertKey, if_pos h0, List.lookup_cons, hb, hb0]
    · simp only [upsertKey, if_neg h0, List.lookup_cons]
      by_cases h1 : k' = k0
      · have hb1 : (k' == k0) = true := beq_iff_eq.mpr h1
        simp [hb1]
      · have hb1 : (k' == k0) = false := beq_eq_false_iff_ne.mpr h1
        simp only [hb1]
        exact ih

theorem lookup_setProfileKeys_session (g : Globals) (role : CombinedRole)
    (keys : List (String × String)) :
    (setProfileKeys g role keys).lookup "sso_session" = some g.ssoSessionConfigName := by
  unfold setProfileKeys
  rw [lookup_upsertKey_ne _ _ _ _ (by decide), lookup_upsertKey_ne _ _ _ _ (by decide),
    lookup_upsertKey_ne _ _ _ _ (by decide), lookup_upsertKey_ne _ _ _ _ (by decide),
    lookup_upsertKey_self]

theorem findSection_upsertSection_self (doc : IniDoc) (name : String)
    (f : List (String × String) → List (String × String)) :
    ∃ keys0, findSection (upsertSection doc name f) name = some ⟨name, f keys0⟩ := by
  induction doc with
  | nil =>
    refine ⟨[], ?_⟩
    simp [upsertSection, findSection, List.find?_cons]
  | cons s rest ih =>
    by_cases h : s.name = name
    · refine ⟨s.keys, ?_⟩
      simp [upsertSection, if_pos h, findSection, List.find?_cons, h]
    · obtain ⟨keys0, hk⟩ := ih
      refine ⟨keys0, ?_⟩
      have hb : (s.name == name) = false := beq_eq_false_iff_ne.mpr h
      simp only [upsertSection, if_neg h, findSection, List.find?_cons, hb]
      exact hk

theorem findSection_upsertSection_ne (doc : IniDoc) (name name' : String)
    (f : List (String × String) → List (String × String)) (h : name' ≠ name) :
    findSection (upsertSection doc name f) name' = findSection doc name' := by
  induction doc with
  | nil =>
    have hb : (name == name') = false := beq_eq_false_iff_ne.mpr (fun he => h he.symm)
    simp [upsertSection, findSection, List.find?_cons, hb]
  | cons s rest ih =>
    by_cases hs : s.name = name
    · have hb : (s.name == name') = false := by
        refine beq_eq_false_iff_ne.mpr ?_
        rw [hs]
        exact fun he => h he.symm
      simp only [upsertSection, if_pos hs, findSection, List.find?_cons, hb]
    · simp only [upsertSection, if_neg hs, findSection, List.find?_cons]
      by_cases h1 : s.name = name'
      · have hb1 : (s.name == name') = true := beq_iff_eq.mpr h1
        simp [hb1]
      · have hb1 : (s.name == name') = false := beq_eq_false_iff_ne.mpr h1
        simp only [hb1]
        exact ih

theorem profileExists_write_self (g : Globals) (n : String) (role : CombinedRole)
    (file : Option IniDoc) (hdry : g.dryRun = false) :
    profileExists n (writeProfileToConfig g n role file) = true := by
  obtain ⟨keys0, hk⟩ :=
    findSection_upsertSection_self (file.getD []) ("profile " ++ n) (setProfileKeys g role)
  simp [writeProfileToConfig, hdry, profileExists, hk, hasKey, lookup_setProfileKeys_session]

theorem profileExists_write_mono (g : Globals) (n m : String) (role : CombinedRole)
    (file : Option IniDoc) (hdry : g.dryRun = false)
    (h : profileExists m file = true) :
    profileExists m (writeProfileToConfig g n role file) = true := by
  cases file with
  | none => simp [profileExists] at h
  | some doc =>
    by_cases hm : ("profile " ++ m : String) = ("profile " ++ n : String)
    · have hgoal : profileExists m
          (some (upsertSection doc ("profile " ++ n) (setProfileKeys g role))) = true := by
        obtain ⟨keys0, hk⟩ :=
          findSection_upsertSection_self doc ("profile " ++ n) (setProfileKeys g role)
        simp only [profileExists, hm]
        simp [hk, hasKey, lookup_setProfileKeys_session]
      simpa [writeProfileToConfig, hdry] using hgoal
    · have hne := findSection_upsertSection_ne doc ("profile " ++ n) ("profile " ++ m)
        (setProfileKeys g role) hm
      simp only [profileExists] at h
      simp only [writeProfileToConfig, hdry, Bool.false_eq_true, if_false,
        Option.getD_some, profileExists, hne]
      exact h

/-- A profile that exists is still there after the loop processes any list
of roles (skips keep the file, writes preserve existing profiles). -/
theorem configureSsoProfilesAux_mono (g : Globals) (hdry : g.dryRun = false) (m : String) :
    ∀ roles added skipped file, profileExists m file = true →
      profileExists m (configureSsoProfilesAux g roles added skipped file).2.2 = true := by
  intro roles
  induction roles with
  | nil =>
    intro added skipped file h
    exact h
  | cons r rest ih =>
    intro added skipped file h
    unfold configureSsoProfilesAux
    by_cases hex : profileExists (getProfileNameFromRole g r) file
    · simp only [hex, if_true]
      exact ih _ _ _ h
    · simp only [hex, Bool.false_eq_true, if_false]
      exact ih _ _ _ (profileExists_write_mono g _ m r file hdry h)

/-- After a non-dry-run reconciliation pass, every processed role's profile
exists in the resulting file. -/
theorem configureSsoProfilesAux_post (g : Globals) (hdry : g.dryRun = false) :
    ∀ roles added skipped file r, r ∈ roles →
      profileExists (getProfileNameFromRole g r)
        (configureSsoProfilesAux g roles added skipped file).2.2 = true := by
  intro roles
  induction roles with
  | nil =>
    intro _ _ _ r hr
    cases hr
  | cons r0 rest ih =>
    intro added skipped file r hr
    unfold configureSsoProfilesAux
    by_cases hex : profileExists (getProfileNameFromRole g r0) file
    · simp only [hex, if_true]
      rcases List.mem_cons.mp hr with h | h
      · subst h
        exact configureSsoProfilesAux_mono g hdry _ rest added (skipped + 1) file hex
      · exact ih added (skipped + 1) file r h
    · simp only [hex, Bool.false_eq_true, if_false]
      rcases List.mem_cons.mp hr with h | h
      · subst h
        exact configureSsoProfilesAux_mono g hdry _ rest (added + 1) skipped _
          (profileExists_write_self g _ r file hdry)
      · exact ih (added + 1) skipped _ r h

/-- When every role's profile already exists, the loop only skips: no
addition, one skip per role, file untouched. -/
theorem configureSsoProfilesAux_all_skip (g : Globals) :
    ∀ roles added skipped file,
      (∀ r ∈ roles, profileExists (getProfileNameFromRole g r) file = true) →
      configureSsoProfilesAux g roles added skipped file =
        (added, skipped + roles.length, file) := by
  intro roles
  induction roles with
  | nil =>
    intro added skipped file _
    simp [configureSsoProfilesAux]
  | cons r0 rest ih =>
    intro added skipped file hall
    unfold configureSsoProfilesAux
    have hex : profileExists (getProfileNameFromRole g r0) file = true :=
      hall r0 (List.mem_cons_self _ _)
    simp only [hex, if_true]
    rw [ih added (skipped + 1) file (fun r hr => hall r (List.mem_cons_of_mem _ hr))]
    simp [Prod.ext_iff]
    omega

/-- C3: profile reconciliation is idempotent — immediately re-running the
non-dry-run reconcile step with the same entitlements and naming
configuration reports zero additions, counts every profile as skipped, and
returns the persisted config file unchanged. -/
theorem c3_reconcile_idempotent (g : Globals) (roles : List CombinedRole)
    (file : Option IniDoc) (hdry : g.dryRun = false) :
    configureSsoProfiles g roles (configureSsoProfiles g roles file).2.2 =
      (0, roles.length, (configureSsoProfiles g roles file).2.2) := by
  unfold configureSsoProfiles
  rw [configureSsoProfilesAux_all_skip g roles 0 0 _
    (fun r hr => configureSsoProfilesAux_post g hdry roles 0 0 file r hr)]
  simp

theorem c3_reconcile_idempotent_witness :
    configureSsoProfiles ⟨[], "", true, "https://unit.test/start", "corp", "us-east-1", false, "json"⟩
        [⟨"123", "AWSReadOnlyAccess", "My App"⟩, ⟨"456", "AWSReadOnlyAccess", "Other"⟩]
        (configureSsoProfiles
          ⟨[], "", true, "https://unit.test/start", "corp", "us-east-1", false, "json"⟩
          [⟨"123", "AWSReadOnlyAccess", "My App"⟩, ⟨"456", "AWSReadOnlyAccess", "Other"⟩]
          none).2.2 =
      (0, 2, (configureSsoProfiles
          ⟨[], "", true, "https://unit.test/start", "corp", "us-east-1", false, "json"⟩
          [⟨"123", "AWSReadOnlyAccess", "My App"⟩, ⟨"456", "AWSReadOnlyAccess", "Other"⟩]
          none).2.2) :=
  c3_reconcile_idempotent _ _ none rfl
